import Mathlib

/-!
# Verification of the LeoNews Google News scraper

Shallow embedding of `src/scripts/google_news_scraper.py`.

Strings are modelled as `List Char` (Python `str` values, indexed by
character).  External collaborators (the HTTP fetch, the feed-parsing
library, the filesystem) are modelled as explicit inputs:

* a fetched HTML page is an `HtmlBody`: the `<link>` elements in document
  order (what the BeautifulSoup link lookup searches) together with the
  raw response text (what the regex fallback scans);
* a parsed feed is a `List FeedEntry` of loosely-typed entries, where a
  missing field is `none` (accessing a required field of a `none` raises in
  Python; this is modelled by the `Option` result of `normalizeEntry`);
* filesystem writes are modelled by a `SaveBehavior` input saying which
  write operations raise, and the resulting `SaveResult`/`RunResult`.
-/

/-- Python strings, modelled character by character. -/
abbrev Str := List Char

/-! ## Configuration (module level constants of the script)

the `NEWS_URL` constant reads the environment via `os.getenv`;
`MAX_ARTICLES = 20` is a plain constant with no environment read.
`Env` models the relevant slots of the OS environment, including a
hypothetical `max_articles` slot so that claims about environment
overridability of the cap can be stated. -/

/-- The OS environment as seen by the script: the optional `NEWS_URL`
variable, plus a hypothetical variable carrying an article cap. -/
structure Env where
  news_url : Option Str
  max_articles : Option Nat
deriving DecidableEq

/-- Default of `NEWS_URL` in the source. -/
def DEFAULT_NEWS_URL : Str :=
  ("https://news.google.com/topics/CAAqJggKIiBDQkFTRWdvSUwyMHZNRGx1YlY4U0FtVnVHZ0pWVXlnQVAB?ceid=US:en&oc=3").toList

/-- The `NEWS_URL` constant: `os.getenv` of the `NEWS_URL` variable with a default. -/
def NEWS_URL_of (env : Env) : Str :=
  env.news_url.getD DEFAULT_NEWS_URL

/-- `MAX_ARTICLES = 20` (a literal constant in the source). -/
def MAX_ARTICLES : Nat := 20

/-- The article cap actually used for a given environment: the source
ignores the environment here and always uses the constant. -/
def MAX_ARTICLES_of (_ : Env) : Nat := MAX_ARTICLES

/-! ## Feed Resolver (`get_rss_feed_url`) -/

/-- A `<link>` element of the fetched page: its optional `type` attribute
and its optional `href` attribute. -/
structure LinkTag where
  type : Option Str
  href : Option Str
deriving DecidableEq

/-- A fetched HTML page: its `<link>` elements in document order, and the
raw response text. -/
structure HtmlBody where
  links : List LinkTag
  text : Str
deriving DecidableEq

/-- The attribute value the BeautifulSoup query `soup.find` matches on:
a `type` attribute equal to `application/rss+xml`. -/
def rssLinkType : Str := ("application/rss+xml").toList

/-- Whether a `<link>` element matches the BeautifulSoup query. -/
def isRssLink (l : LinkTag) : Bool := l.type == some rssLinkType

/-- The literal part of the fallback regex
`https news google com rss topics`, ahead of the negated quote class. -/
def rssTopicStem : Str := ("https://news.google.com/rss/topics/").toList

/-- Whether a character is a single quote (codepoint 39) or a double quote
(codepoint 34), i.e. belongs to the regex character class excluded by
the negated class in the fallback pattern. -/
def isQuoteChar (c : Char) : Bool := c.toNat == 34 || c.toNat == 39

/-- Attempt of the fallback regex at one position: the stem must occur
literally, followed by a Python-greedy, nonempty run of non-quote
characters; the match is the stem plus that run. -/
def regexMatchAt (s : Str) : Option Str :=
  if rssTopicStem.isPrefixOf s then
    if ((s.drop rssTopicStem.length).takeWhile (fun c => !isQuoteChar c)).isEmpty then none
    else some (rssTopicStem ++ (s.drop rssTopicStem.length).takeWhile (fun c => !isQuoteChar c))
  else none

/-- `re.search`: try the pattern at each position left to right and return
the first (leftmost) match. -/
def regexSearch : Str → Option Str
  | [] => none
  | c :: cs =>
    match regexMatchAt (c :: cs) with
    | some m => some m
    | none => regexSearch cs

/-- Body of `get_rss_feed_url` after a successful fetch: find the first
`<link>` of type `application/rss+xml`; if found, return its `href`
(an absent `href` raises a `KeyError`, caught by the surrounding
`except`, hence `none`); otherwise fall back to the regex scan of the
raw text. -/
def get_rss_feed_url (body : HtmlBody) : Option Str :=
  match body.links.find? isRssLink with
  | some l => l.href
  | none => regexSearch body.text

/-- The whole resolver including the fetch: a failed fetch (network error
or non-2xx status) raises inside the `try`, is caught, and yields
`none`. -/
def resolveFeed (fetch : Option HtmlBody) : Option Str :=
  match fetch with
  | some body => get_rss_feed_url body
  | none => none

/-! ## Feed Normalizer (`parse_rss_feed`) -/

/-- The nested `source` object of a feed entry (may lack a `title`). -/
structure SourceInfo where
  title : Option Str
deriving DecidableEq

/-- A raw feed entry as delivered by the feed-parsing collaborator; every
field may be absent. -/
structure FeedEntry where
  title : Option Str
  link : Option Str
  published : Option Str
  summary : Option Str
  source : Option SourceInfo
deriving DecidableEq

/-- The normalized output record. -/
structure Article where
  title : Str
  link : Str
  published : Str
  source : Str
  summary : Str
deriving DecidableEq

/-- The separator `" - "` used by the source-name cleanup. -/
def SEP : Str := (" - ").toList

/-- First occurrence of `pat` in a string, as the text before it and the
text after it (Python substring search, leftmost occurrence). -/
def findSub (pat : Str) : Str → Option (Str × Str)
  | [] => none
  | c :: cs =>
    if pat.isPrefixOf (c :: cs) then some ([], (c :: cs).drop pat.length)
    else
      match findSub pat cs with
      | some (pre, post) => some (c :: pre, post)
      | none => none

/-- Python `pat in s` (for nonempty `pat`). -/
def pyContains (s pat : Str) : Bool := (findSub pat s).isSome

/-- Python `s.split(pat)[0]`: the text before the first occurrence of
`pat`, or all of `s` when `pat` does not occur. -/
def pySplitHead (s pat : Str) : Str :=
  match findSub pat s with
  | some (pre, _) => pre
  | none => s

/-- The cleanup step: when the separator occurs in `source`, keep only
`source.split(sep)[0]`, the text before its first occurrence. -/
def cleanSource (s : Str) : Str :=
  if pyContains s SEP then pySplitHead s SEP else s

/-- The nested source title of an entry, when present. -/
def rawSourceTitle (e : FeedEntry) : Option Str :=
  e.source.bind (fun si => si.title)

/-- The source extraction: the nested source title with an empty-string
default (both for a missing source object and for a missing title),
followed by the separator cleanup. -/
def extractSource (e : FeedEntry) : Str :=
  cleanSource ((rawSourceTitle e).getD [])

/-- Building one article dict from one entry.  `entry.title` and
`entry.link` are attribute accesses that raise when the field is absent
(modelled by `none`); `published` and `summary` use `.get` with an
empty-string default. -/
def normalizeEntry (e : FeedEntry) : Option Article :=
  match e.title, e.link with
  | some t, some l =>
    some ⟨t, l, e.published.getD [], extractSource e, e.summary.getD []⟩
  | _, _ => none

/-- The `for entry in ...` loop: build articles in order; any raised
exception aborts the whole loop (modelled by `none`). -/
def normalizeEntries : List FeedEntry → Option (List Article)
  | [] => some []
  | e :: rest =>
    match normalizeEntry e with
    | some a => (normalizeEntries rest).map (fun as => a :: as)
    | none => none

/-- `parse_rss_feed`, given the entry list produced by the feed-parsing
collaborator: take `feed.entries[:MAX_ARTICLES]`, normalize them, and
return `[]` if anything raised (the outer `except`). -/
def parse_rss_feed (entries : List FeedEntry) : List Article :=
  match normalizeEntries (entries.take MAX_ARTICLES) with
  | some arts => arts
  | none => []

/-! ## README rendering (`update_readme`, top-5 block) -/

/-- The literal `"..."` appended after the summary slice. -/
def ELLIPSIS : Str := ("...").toList

/-- The rendered excerpt: the raw summary sliced to its first 150
characters, then the literal ellipsis. -/
def summaryExcerpt (a : Article) : Str :=
  a.summary.take 150 ++ ELLIPSIS

/-- The two Markdown lines rendered for the `i`-th (1-based) article of
the top-5 block. -/
def articleBlock (i : Nat) (a : Article) : Str :=
  (toString i).toList ++ (". [").toList ++ a.title ++ ("](").toList ++ a.link
    ++ (") - *").toList ++ a.source ++ ("*\n").toList
    ++ ("   > ").toList ++ summaryExcerpt a ++ ("\n\n").toList

/-- `for i, article in enumerate(articles[:5], 1)` rendering, starting at
index `i`. -/
def articlesBlocks : Nat → List Article → List Str
  | _, [] => []
  | i, a :: rest => articleBlock i a :: articlesBlocks (i + 1) rest

/-- The rendered per-article blocks of the top-5 section. -/
def readmeTop5 (articles : List Article) : List Str :=
  articlesBlocks 1 (articles.take 5)

/-! ## Persistence and driver (`save_news_data`, `update_readme`, `__main__`) -/

/-- Which filesystem writes raise during one run (external behaviour). -/
structure SaveBehavior where
  jsonWriteRaises : Bool
  readmeWriteRaises : Bool
deriving DecidableEq

/-- Observable outcome of `save_news_data`: whether the JSON snapshot and
the README were written, and whether an error was logged.  The function
itself never raises: both it and `update_readme` wrap their bodies in
catch-all handlers. -/
structure SaveResult where
  jsonWritten : Bool
  readmeWritten : Bool
  errorLogged : Bool
deriving DecidableEq

/-- `update_readme`: writes the README unless the write raises, in which
case the exception is caught and logged inside the function. -/
def update_readme_run (b : SaveBehavior) : Bool × Bool :=
  if b.readmeWriteRaises then (false, true) else (true, false)

/-- `save_news_data`: write the JSON snapshot, then call `update_readme`.
A raising JSON write is caught by its own handler (the README
step is then never reached); `update_readme` absorbs its own failures. -/
def save_news_data_run (b : SaveBehavior) : SaveResult :=
  if b.jsonWriteRaises then ⟨false, false, true⟩
  else
    let r := update_readme_run b
    ⟨true, r.1, r.2⟩

/-- Observable outcome of one run of the `__main__` block. -/
structure RunResult where
  exitCode : Nat
  snapshotWritten : Bool
  completionPrinted : Bool
deriving DecidableEq

/-- The `__main__` driver: resolve the feed URL (`exit(1)` when that
fails), parse the feed (`exit(1)` when no articles result), then save;
the script then falls off the end, exiting with code 0.  `entriesOf`
models the feed-parsing collaborator (entries obtained from a feed
URL); `save` models the filesystem behaviour. -/
def main_run (fetch : Option HtmlBody) (entriesOf : Str → List FeedEntry)
    (save : SaveBehavior) : RunResult :=
  match resolveFeed fetch with
  | none => ⟨1, false, false⟩
  | some rss =>
    match parse_rss_feed (entriesOf rss) with
    | [] => ⟨1, false, false⟩
    | _ :: _ =>
      let s := save_news_data_run save
      ⟨0, s.jsonWritten, true⟩

/-! ## Helper lemmas about substring search (`findSub`) -/

/-- Soundness of `findSub`: a hit decomposes the string at the first
occurrence of the pattern. -/
theorem findSub_some (pat : Str) (s pre post : Str)
    (h : findSub pat s = some (pre, post)) :
    s = pre ++ pat ++ post ∧ ∀ j < pre.length, pat.isPrefixOf (s.drop j) = false := by
  induction s generalizing pre post with
  | nil => simp [findSub] at h
  | cons c cs ih =>
    rw [findSub] at h
    by_cases hp : pat.isPrefixOf (c :: cs)
    · rw [if_pos hp] at h
      injection h with h'
      obtain ⟨h1, h2⟩ := Prod.mk.injEq .. ▸ h'
      obtain ⟨tail, htail⟩ := List.isPrefixOf_iff_prefix.mp hp
      subst h1
      constructor
      · rw [← h2, ← htail, List.drop_left]
        simp [htail]
      · intro j hj
        simp at hj
    · rw [if_neg hp] at h
      cases hcs : findSub pat cs with
      | none => rw [hcs] at h; exact absurd h (by simp)
      | some pp =>
        obtain ⟨pre', post'⟩ := pp
        rw [hcs] at h
        injection h with h'
        obtain ⟨h1, h2⟩ := Prod.mk.injEq .. ▸ h'
        obtain ⟨hs, hmin⟩ := ih pre' post' hcs
        subst h2
        constructor
        · rw [← h1, List.cons_append, List.cons_append, hs]
        · intro j hj
          cases j with
          | zero =>
            rw [List.drop_zero]
            exact Bool.eq_false_iff.mpr hp
          | succ k =>
            rw [List.drop_succ_cons]
            subst h1
            exact hmin k (by simpa using hj)

/-- Completeness of `findSub`: a miss means the pattern occurs nowhere. -/
theorem findSub_none (pat : Str) (hpat : pat ≠ []) (s : Str)
    (h : findSub pat s = none) :
    ∀ j, pat.isPrefixOf (s.drop j) = false := by
  induction s with
  | nil =>
    intro j
    rw [List.drop_nil]
    cases pat with
    | nil => exact absurd rfl hpat
    | cons a as => rfl
  | cons c cs ih =>
    rw [findSub] at h
    by_cases hp : pat.isPrefixOf (c :: cs)
    · rw [if_pos hp] at h; exact absurd h (by simp)
    · rw [if_neg hp] at h
      cases hcs : findSub pat cs with
      | some pp => rw [hcs] at h; exact absurd h (by simp)
      | none =>
        intro j
        cases j with
        | zero => rw [List.drop_zero]; exact Bool.eq_false_iff.mpr hp
        | succ k => rw [List.drop_succ_cons]; exact ih hcs k

/-! ## C2: source-name normalization -/

/-- C2: the normalized `source` of an entry is, when the nested source
title contains the separator `" - "`, exactly the text before the first
occurrence of the separator; when the title contains no separator, the
title unchanged; and when there is no source title, the empty string. -/
theorem C2_source_normalization (e : FeedEntry) :
    (∀ t, rawSourceTitle e = some t → pyContains t SEP = true →
      ∃ rest, t = extractSource e ++ SEP ++ rest ∧
        ∀ j < (extractSource e).length, SEP.isPrefixOf (t.drop j) = false) ∧
    (∀ t, rawSourceTitle e = some t → pyContains t SEP = false →
      extractSource e = t) ∧
    (rawSourceTitle e = none → extractSource e = []) := by
  refine ⟨?_, ?_, ?_⟩
  · intro t ht hc
    have hx : extractSource e = cleanSource t := by
      rw [extractSource, ht, Option.getD_some]
    rw [cleanSource, if_pos hc] at hx
    have hc' := hc
    rw [pyContains] at hc'
    obtain ⟨⟨pre, post⟩, hfs⟩ := Option.isSome_iff_exists.mp hc'
    rw [pySplitHead, hfs] at hx
    obtain ⟨hdec, hmin⟩ := findSub_some SEP t pre post hfs
    rw [hx]
    exact ⟨post, hdec, hmin⟩
  · intro t ht hc
    rw [extractSource, ht, Option.getD_some, cleanSource, if_neg (by simp [hc])]
  · intro ht
    rw [extractSource, ht, Option.getD_none]
    rfl

/-- Entry whose nested source title carries no `" - "` separator. -/
def plainSourceEntry : FeedEntry :=
  ⟨some (("T").toList), some (("L").toList), none, none,
   some ⟨some (("Reuters").toList)⟩⟩

/-- Witness for C2 at a concrete entry: a separator-free source title is
kept unchanged. -/
theorem C2_source_normalization_witness :
    extractSource plainSourceEntry = ("Reuters").toList :=
  (C2_source_normalization plainSourceEntry).2.1 (("Reuters").toList) rfl (by decide)

/-! ## C1 / C5: cap, order, and batch discard of `parse_rss_feed` -/

/-- The article built from an entry whose required fields are present. -/
def defaultArticle (e : FeedEntry) : Article :=
  ⟨e.title.getD [], e.link.getD [], e.published.getD [], extractSource e,
   e.summary.getD []⟩

/-- When every entry of a list has `title` and `link`, normalization
succeeds entry by entry, in order. -/
theorem normalizeEntries_all_some (l : List FeedEntry)
    (h : ∀ e ∈ l, e.title.isSome ∧ e.link.isSome) :
    normalizeEntries l = some (l.map defaultArticle) := by
  induction l with
  | nil => rfl
  | cons e rest ih =>
    obtain ⟨ht, hl⟩ := h e (List.mem_cons_self e rest)
    obtain ⟨t, ht'⟩ := Option.isSome_iff_exists.mp ht
    obtain ⟨lk, hl'⟩ := Option.isSome_iff_exists.mp hl
    have ih' := ih (fun e' he' => h e' (List.mem_cons_of_mem _ he'))
    simp [normalizeEntries, normalizeEntry, ht', hl', ih', defaultArticle]

/-- C1 (amended): when every taken entry has its required `title` and
`link` fields, `parse_rss_feed` returns one record per taken entry, in
feed order, i.e. exactly `min N MAX_ARTICLES` records for `N` entries. -/
theorem C1_cap_and_order (entries : List FeedEntry)
    (h : ∀ e ∈ entries.take MAX_ARTICLES, e.title.isSome ∧ e.link.isSome) :
    parse_rss_feed entries = (entries.take MAX_ARTICLES).map defaultArticle ∧
    (parse_rss_feed entries).length = min entries.length MAX_ARTICLES := by
  have h1 := normalizeEntries_all_some _ h
  have h2 : parse_rss_feed entries = (entries.take MAX_ARTICLES).map defaultArticle := by
    rw [parse_rss_feed, h1]
  refine ⟨h2, ?_⟩
  rw [h2]
  simp [Nat.min_comm]

/-- A well-formed entry. -/
def wEntryA : FeedEntry := ⟨some ['a'], some ['b'], none, none, none⟩

/-- Another well-formed entry, with all optional fields present. -/
def wEntryB : FeedEntry :=
  ⟨some ['c'], some ['d'], some ['p'], some ['s'], some ⟨some (("X - Y").toList)⟩⟩

/-- Witness for C1 on a concrete two-entry feed. -/
theorem C1_cap_and_order_witness :
    parse_rss_feed [wEntryA, wEntryB]
      = (([wEntryA, wEntryB] : List FeedEntry).take MAX_ARTICLES).map defaultArticle ∧
    (parse_rss_feed [wEntryA, wEntryB]).length
      = min ([wEntryA, wEntryB] : List FeedEntry).length MAX_ARTICLES :=
  C1_cap_and_order [wEntryA, wEntryB] (by decide)

/-- An entry with no `title` field. -/
def titlelessEntry : FeedEntry := ⟨none, some ['l'], none, none, none⟩

/-- Counterexample to C1 as stated: a 1-entry feed whose entry lacks a
title yields 0 records, not `min 1 20 = 1`. -/
theorem C1_counterexample :
    parse_rss_feed [titlelessEntry] = [] ∧
    (parse_rss_feed [titlelessEntry]).length
      ≠ min ([titlelessEntry] : List FeedEntry).length MAX_ARTICLES := by
  decide

/-- A failing entry poisons the whole loop. -/
theorem normalizeEntries_bad (l : List FeedEntry) (e : FeedEntry)
    (he : e ∈ l) (hbad : normalizeEntry e = none) :
    normalizeEntries l = none := by
  induction l with
  | nil => cases he
  | cons x rest ih =>
    rcases List.mem_cons.mp he with h | h
    · subst h
      simp [normalizeEntries, hbad]
    · rw [normalizeEntries]
      cases hx : normalizeEntry x with
      | none => rfl
      | some a => simp [ih h]

/-- C5: if any entry among the taken ones lacks `title` or `link`, the
entire batch is discarded and `parse_rss_feed` returns the empty list
(the modelled catch-all handler); no partial output is produced. -/
theorem C5_batch_discard (entries : List FeedEntry) (e : FeedEntry)
    (he : e ∈ entries.take MAX_ARTICLES) (hbad : e.title = none ∨ e.link = none) :
    parse_rss_feed entries = [] := by
  have hne : normalizeEntry e = none := by
    rw [normalizeEntry]
    rcases hbad with h | h <;>
      rcases h1 : e.title with _ | t <;> rcases h2 : e.link with _ | lk <;> simp_all
  rw [parse_rss_feed, normalizeEntries_bad _ e he hne]

/-- An entry with no `link` field. -/
def linklessEntry : FeedEntry := ⟨some ['t'], none, none, none, none⟩

/-- Witness for C5: one malformed entry next to a well-formed one empties
the whole result. -/
theorem C5_batch_discard_witness : parse_rss_feed [wEntryA, linklessEntry] = [] :=
  C5_batch_discard [wEntryA, linklessEntry] linklessEntry (by decide) (Or.inr rfl)

/-! ## C3 / C9: link lookup in the Feed Resolver -/

/-- `List.find?` returns the first element satisfying the predicate. -/
theorem find?_first {α : Type} (p : α → Bool) (pre : List α) (x : α) (post : List α)
    (hpre : ∀ y ∈ pre, p y = false) (hx : p x = true) :
    (pre ++ x :: post).find? p = some x := by
  induction pre with
  | nil => simpa using List.find?_cons_of_pos post hx
  | cons c rest ih =>
    rw [List.cons_append,
      List.find?_cons_of_neg _ (by simp [hpre c (List.mem_cons_self c rest)])]
    exact ih (fun y hy => hpre y (List.mem_cons_of_mem _ hy))

/-- C3 (amended): when the first `<link>` of type `application/rss+xml`
in document order carries `href = X`, the resolver returns exactly `X`,
whatever other links and raw text the body contains. -/
theorem C3_first_rss_link_href (body : HtmlBody) (pre post : List LinkTag)
    (l : LinkTag) (X : Str)
    (hsplit : body.links = pre ++ l :: post)
    (hpre : ∀ y ∈ pre, isRssLink y = false)
    (hl : isRssLink l = true) (hhref : l.href = some X) :
    get_rss_feed_url body = some X := by
  have h1 : body.links.find? isRssLink = some l := by
    rw [hsplit]
    exact find?_first isRssLink pre l post hpre hl
  simp [get_rss_feed_url, h1, hhref]

/-- A non-feed `<link>` element (a stylesheet). -/
def cssLink : LinkTag := ⟨some (("text/css").toList), some (("style.css").toList)⟩

/-- The feed `<link>` element of the witness body. -/
def feedLink : LinkTag := ⟨some rssLinkType, some (("https://news.google.com/rss/feed").toList)⟩

/-- A body with other markup before the feed link. -/
def w3Body : HtmlBody := ⟨[cssLink, feedLink], ("<html>junk</html>").toList⟩

/-- Witness for C3 on a concrete page. -/
theorem C3_first_rss_link_href_witness :
    get_rss_feed_url w3Body = some (("https://news.google.com/rss/feed").toList) :=
  C3_first_rss_link_href w3Body [cssLink] [] feedLink _ rfl (by decide) (by decide) rfl

/-- A body with two feed links whose `href`s disagree. -/
def c3Body : HtmlBody :=
  ⟨[⟨some rssLinkType, some ['A']⟩, ⟨some rssLinkType, some ['B']⟩], []⟩

/-- Counterexample to C3 as stated: the body contains a feed link with
`href = "B"`, yet the resolver answers `"A"` (the first feed link wins),
so the result is not `X` for every feed link `href = X` present. -/
theorem C3_counterexample :
    (LinkTag.mk (some rssLinkType) (some ['B'])) ∈ c3Body.links ∧
    get_rss_feed_url c3Body = some ['A'] ∧ (['A'] : Str) ≠ ['B'] := by
  decide

/-- C9: when the first `<link>` of type `application/rss+xml` has no
`href` attribute, the resolver returns `none` — the `KeyError` is
absorbed by the boundary handler of the component and the regex fallback over the raw
text is never consulted, whatever that text contains. -/
theorem C9_missing_href_absorbed (body : HtmlBody) (pre post : List LinkTag)
    (l : LinkTag)
    (hsplit : body.links = pre ++ l :: post)
    (hpre : ∀ y ∈ pre, isRssLink y = false)
    (hl : isRssLink l = true) (hhref : l.href = none) :
    get_rss_feed_url body = none := by
  have h1 : body.links.find? isRssLink = some l := by
    rw [hsplit]
    exact find?_first isRssLink pre l post hpre hl
  simp [get_rss_feed_url, h1, hhref]

/-- A body whose only feed link has no `href`, while the raw text holds a
perfectly good quoted fallback URL. -/
def w9Body : HtmlBody :=
  ⟨[⟨some rssLinkType, none⟩],
   ("https://news.google.com/rss/topics/ABC").toList ++ [Char.ofNat 34]⟩

/-- Witness for C9: the fallback scan would have found a URL, but the
resolver still answers `none`. -/
theorem C9_missing_href_absorbed_witness :
    regexSearch w9Body.text = some (("https://news.google.com/rss/topics/ABC").toList) ∧
    get_rss_feed_url w9Body = none :=
  ⟨by decide,
   C9_missing_href_absorbed w9Body [] [] ⟨some rssLinkType, none⟩ rfl (by decide)
     (by decide) rfl⟩

/-- A body whose first feed link has an `href` and whose second one lacks
it. -/
def c9Body : HtmlBody :=
  ⟨[⟨some rssLinkType, some ['X']⟩, ⟨some rssLinkType, none⟩], []⟩

/-- Counterexample to C9 as stated: this body does contain a feed link
without `href`, yet the resolver does not return `none` (it returns the
`href` of the first feed link). -/
theorem C9_counterexample :
    (LinkTag.mk (some rssLinkType) none) ∈ c9Body.links ∧
    get_rss_feed_url c9Body ≠ none := by
  decide

/-! ## C4: the regex fallback -/

/-- The head of a `dropWhile` residue fails the predicate. -/
theorem dropWhile_head_false {α : Type} (p : α → Bool) (l : List α) (d : α)
    (ds : List α) (h : l.dropWhile p = d :: ds) : p d = false := by
  induction l with
  | nil => simp [List.dropWhile] at h
  | cons c cs ih =>
    rw [List.dropWhile_cons] at h
    by_cases hc : p c = true
    · rw [if_pos hc] at h
      exact ih h
    · rw [if_neg hc] at h
      injection h with h1 h2
      subst h1
      exact Bool.eq_false_iff.mpr hc

/-- Soundness of one regex attempt: a hit is the stem followed by the
maximal nonempty run of non-quote characters, stopping at a quote or at
the end of the string. -/
theorem regexMatchAt_some (s m : Str) (h : regexMatchAt s = some m) :
    ∃ id rest, s = rssTopicStem ++ id ++ rest ∧ m = rssTopicStem ++ id ∧
      id ≠ [] ∧ (∀ c ∈ id, isQuoteChar c = false) ∧
      (rest = [] ∨ ∃ d ds, rest = d :: ds ∧ isQuoteChar d = true) := by
  rw [regexMatchAt] at h
  by_cases hp : rssTopicStem.isPrefixOf s
  · rw [if_pos hp] at h
    obtain ⟨tail, htail⟩ := List.isPrefixOf_iff_prefix.mp hp
    have hdrop : s.drop rssTopicStem.length = tail := by
      rw [← htail, List.drop_left]
    rw [hdrop] at h
    by_cases he : (tail.takeWhile (fun c => !isQuoteChar c)).isEmpty = true
    · rw [if_pos he] at h
      exact absurd h (by simp)
    · rw [if_neg he] at h
      injection h with h'
      refine ⟨tail.takeWhile (fun c => !isQuoteChar c),
        tail.dropWhile (fun c => !isQuoteChar c), ?_, h'.symm, ?_, ?_, ?_⟩
      · rw [List.append_assoc, List.takeWhile_append_dropWhile, htail]
      · exact List.isEmpty_eq_false.mp (Bool.eq_false_iff.mpr he)
      · intro c hc
        have := List.mem_takeWhile_imp hc
        rwa [Bool.not_eq_true'] at this
      · cases hd : tail.dropWhile (fun c => !isQuoteChar c) with
        | nil => exact Or.inl rfl
        | cons d ds =>
          refine Or.inr ⟨d, ds, rfl, ?_⟩
          have := dropWhile_head_false _ tail d ds hd
          rwa [Bool.not_eq_false'] at this
  · rw [if_neg hp] at h
    exact absurd h (by simp)

/-- Completeness of one regex attempt: the stem followed by a nonempty
quote-free run is always a hit. -/
theorem regexMatchAt_isSome (s id rest : Str) (hs : s = rssTopicStem ++ id ++ rest)
    (hid : id ≠ []) (hq : ∀ c ∈ id, isQuoteChar c = false) :
    regexMatchAt s ≠ none := by
  have hp : rssTopicStem.isPrefixOf s := by
    refine List.isPrefixOf_iff_prefix.mpr ⟨id ++ rest, ?_⟩
    rw [hs, List.append_assoc]
  have hdrop : s.drop rssTopicStem.length = id ++ rest := by
    rw [hs, List.append_assoc, List.drop_left]
  rw [regexMatchAt, if_pos hp, hdrop]
  obtain ⟨c, cs, rfl⟩ : ∃ c cs, id = c :: cs := by
    cases id with
    | nil => exact absurd rfl hid
    | cons a b => exact ⟨a, b, rfl⟩
  have hqc : (!isQuoteChar c) = true := by
    rw [Bool.not_eq_true']
    exact hq c (List.mem_cons_self c cs)
  rw [List.cons_append,
    @List.takeWhile_cons_of_pos _ (fun c => !isQuoteChar c) c (cs ++ rest) hqc]
  simp

/-- A miss of the whole scan means every position misses. -/
theorem regexSearch_none (t : Str) (h : regexSearch t = none) :
    ∀ j, regexMatchAt (t.drop j) = none := by
  induction t with
  | nil =>
    intro j
    rw [List.drop_nil]
    rfl
  | cons c cs ih =>
    rw [regexSearch] at h
    cases hm : regexMatchAt (c :: cs) with
    | some m => rw [hm] at h; exact absurd h (by simp)
    | none =>
      rw [hm] at h
      intro j
      cases j with
      | zero => rw [List.drop_zero]; exact hm
      | succ k => rw [List.drop_succ_cons]; exact ih h k

/-- A hit of the whole scan is the hit of the leftmost matching
position. -/
theorem regexSearch_some (t m : Str) (h : regexSearch t = some m) :
    ∃ j, regexMatchAt (t.drop j) = some m ∧
      ∀ j' < j, regexMatchAt (t.drop j') = none := by
  induction t with
  | nil => rw [regexSearch] at h; exact absurd h (by simp)
  | cons c cs ih =>
    rw [regexSearch] at h
    cases hm : regexMatchAt (c :: cs) with
    | some m' =>
      rw [hm] at h
      injection h with h'
      subst h'
      exact ⟨0, hm, fun j' hj' => absurd hj' (Nat.not_lt_zero j')⟩
    | none =>
      rw [hm] at h
      obtain ⟨j, hj, hmin⟩ := ih h
      refine ⟨j + 1, ?_, ?_⟩
      · rw [List.drop_succ_cons]; exact hj
      · intro j' hj'
        cases j' with
        | zero => rw [List.drop_zero]; exact hm
        | succ k => rw [List.drop_succ_cons]; exact hmin k (by omega)

/-- The fallback pattern occurs at position `j` of `t`: the stem followed
by at least one non-quote character. -/
def MatchesAt (t : Str) (j : Nat) : Prop :=
  ∃ id rest, t.drop j = rssTopicStem ++ id ++ rest ∧ id ≠ [] ∧
    ∀ c ∈ id, isQuoteChar c = false

/-- A missing attempt at a position rules the pattern out there. -/
theorem not_matchesAt_of_none (t : Str) (j : Nat)
    (h : regexMatchAt (t.drop j) = none) : ¬ MatchesAt t j := by
  rintro ⟨id, rest, hs, hid, hq⟩
  exact regexMatchAt_isSome _ id rest hs hid hq h

/-- C4 (amended): with no feed `<link>` in the body, the resolver returns
the leftmost substring of the raw text made of the feed stem followed by
the maximal nonempty run of non-quote characters — the run ends at a
quote character (excluded) or at the end of the text — and `none` when
no position of the text carries such a substring. -/
theorem C4_regex_fallback (body : HtmlBody)
    (hnol : ∀ l ∈ body.links, isRssLink l = false) :
    (∀ m, get_rss_feed_url body = some m →
      ∃ j id rest, body.text.drop j = rssTopicStem ++ id ++ rest ∧
        m = rssTopicStem ++ id ∧ id ≠ [] ∧ (∀ c ∈ id, isQuoteChar c = false) ∧
        (rest = [] ∨ ∃ d ds, rest = d :: ds ∧ isQuoteChar d = true) ∧
        (∀ j' < j, ¬ MatchesAt body.text j')) ∧
    (get_rss_feed_url body = none → ∀ j, ¬ MatchesAt body.text j) := by
  have hfind : body.links.find? isRssLink = none := by
    rw [List.find?_eq_none]
    intro x hx
    simp [hnol x hx]
  have hg : get_rss_feed_url body = regexSearch body.text := by
    simp [get_rss_feed_url, hfind]
  constructor
  · intro m hm
    rw [hg] at hm
    obtain ⟨j, hj, hmin⟩ := regexSearch_some _ _ hm
    obtain ⟨id, rest, h1, h2, h3, h4, h5⟩ := regexMatchAt_some _ _ hj
    exact ⟨j, id, rest, h1, h2, h3, h4, h5,
      fun j' hj' => not_matchesAt_of_none _ _ (hmin j' hj')⟩
  · intro hm j
    rw [hg] at hm
    exact not_matchesAt_of_none _ _ (regexSearch_none _ hm j)

/-- A body with no `<link>` elements whose text embeds one quoted topic
URL. -/
def w4Body : HtmlBody :=
  ⟨[], ("<a href=").toList ++ [Char.ofNat 34]
    ++ ("https://news.google.com/rss/topics/AB").toList
    ++ [Char.ofNat 34] ++ ("></a>").toList⟩

/-- Witness for C4: the resolver extracts the quoted topic URL, quote
excluded, from a link-free page. -/
theorem C4_regex_fallback_witness :
    get_rss_feed_url w4Body = some (("https://news.google.com/rss/topics/AB").toList) ∧
    (∃ j id rest, w4Body.text.drop j = rssTopicStem ++ id ++ rest ∧
      ("https://news.google.com/rss/topics/AB").toList = rssTopicStem ++ id ∧
      id ≠ [] ∧ (∀ c ∈ id, isQuoteChar c = false) ∧
      (rest = [] ∨ ∃ d ds, rest = d :: ds ∧ isQuoteChar d = true) ∧
      (∀ j' < j, ¬ MatchesAt w4Body.text j')) :=
  ⟨by decide, (C4_regex_fallback w4Body (by decide)).1 _ (by decide)⟩

/-- A link-free body whose text is a bare topic URL with no quote
character anywhere. -/
def c4Body : HtmlBody := ⟨[], ("https://news.google.com/rss/topics/ABC").toList⟩

/-- Counterexample to C4 as stated: the text holds no quote character at
all, so it has no substring terminated by a quote, yet the resolver does
not return `none` — the greedy run may also end at the end of the
text. -/
theorem C4_counterexample :
    c4Body.text.all (fun c => !isQuoteChar c) = true ∧
    get_rss_feed_url c4Body = some (("https://news.google.com/rss/topics/ABC").toList) := by
  decide

/-! ## C6 / C10: exit behaviour of the driver -/

/-- C6 (amended): a failed resolution exits with code 1 and writes no
snapshot; zero extracted articles exits with the same code 1 (not a
distinct one) and writes no snapshot; a run with a resolved feed and at
least one article exits with code 0; no exit code other than 0 and 1 is
possible. -/
theorem C6_exit_codes (fetch : Option HtmlBody) (entriesOf : Str → List FeedEntry)
    (save : SaveBehavior) :
    (resolveFeed fetch = none →
      main_run fetch entriesOf save = ⟨1, false, false⟩) ∧
    (∀ rss, resolveFeed fetch = some rss → parse_rss_feed (entriesOf rss) = [] →
      main_run fetch entriesOf save = ⟨1, false, false⟩) ∧
    (∀ rss, resolveFeed fetch = some rss → parse_rss_feed (entriesOf rss) ≠ [] →
      (main_run fetch entriesOf save).exitCode = 0) ∧
    ((main_run fetch entriesOf save).exitCode = 0 ∨
      (main_run fetch entriesOf save).exitCode = 1) := by
  refine ⟨?_, ?_, ?_, ?_⟩
  · intro h
    simp [main_run, h]
  · intro rss h1 h2
    simp [main_run, h1, h2]
  · intro rss h1 h2
    cases hp : parse_rss_feed (entriesOf rss) with
    | nil => exact absurd hp h2
    | cons a as => simp [main_run, h1, hp]
  · cases hr : resolveFeed fetch with
    | none => right; simp [main_run, hr]
    | some rss =>
      cases hp : parse_rss_feed (entriesOf rss) with
      | nil => right; simp [main_run, hr, hp]
      | cons a as => left; simp [main_run, hr, hp]

/-- A feed-parsing collaborator returning no entries at all. -/
def noEntries : Str → List FeedEntry := fun _ => []

/-- A filesystem where every write succeeds. -/
def calmSave : SaveBehavior := ⟨false, false⟩

/-- Witness for C6: a failed fetch ends the run with exit code 1 and no
snapshot. -/
theorem C6_exit_codes_witness : main_run none noEntries calmSave = ⟨1, false, false⟩ :=
  (C6_exit_codes none noEntries calmSave).1 rfl

/-- A body whose feed link resolves at once. -/
def okBody : HtmlBody := ⟨[⟨some rssLinkType, some ['f']⟩], []⟩

/-- Counterexample to C6 as stated: the resolution-failure run and the
zero-article run exit with the same code 1, not with distinct codes. -/
theorem C6_counterexample :
    (main_run none noEntries calmSave).exitCode = 1 ∧
    (main_run (some okBody) noEntries calmSave).exitCode = 1 := by
  decide

/-- C10: once a feed URL is resolved and at least one article extracted,
the run exits with code 0 and prints the completion message whatever the
filesystem does — `save_news_data` and `update_readme` absorb their own
failures (they are total on every `SaveBehavior`). -/
theorem C10_save_failure_still_success (fetch : Option HtmlBody)
    (entriesOf : Str → List FeedEntry) (save : SaveBehavior) (rss : Str)
    (hres : resolveFeed fetch = some rss)
    (harts : parse_rss_feed (entriesOf rss) ≠ []) :
    (main_run fetch entriesOf save).exitCode = 0 ∧
    (main_run fetch entriesOf save).completionPrinted = true := by
  cases hp : parse_rss_feed (entriesOf rss) with
  | nil => exact absurd hp harts
  | cons a as => constructor <;> simp [main_run, hres, hp]

/-- A feed-parsing collaborator returning one well-formed entry. -/
def oneEntry : Str → List FeedEntry := fun _ => [⟨some ['t'], some ['l'], none, none, none⟩]

/-- A filesystem where both the JSON write and the README write raise. -/
def failingSave : SaveBehavior := ⟨true, true⟩

/-- Witness for C10: both writes raise, the process still exits 0 and
prints the completion message. -/
theorem C10_save_failure_still_success_witness :
    (main_run (some okBody) oneEntry failingSave).exitCode = 0 ∧
    (main_run (some okBody) oneEntry failingSave).completionPrinted = true :=
  C10_save_failure_still_success (some okBody) oneEntry failingSave ['f']
    (by decide) (by decide)

/-! ## C7: configuration -/

/-- C7 (amended): the topic URL honours the `NEWS_URL` environment
variable and falls back to the built-in default, while the article cap
is the constant 20 for every environment — it is not
environment-overridable. -/
theorem C7_config_override (env : Env) :
    (∀ v, env.news_url = some v → NEWS_URL_of env = v) ∧
    (env.news_url = none → NEWS_URL_of env = DEFAULT_NEWS_URL) ∧
    MAX_ARTICLES_of env = 20 := by
  refine ⟨?_, ?_, rfl⟩
  · intro v hv
    rw [NEWS_URL_of, hv, Option.getD_some]
  · intro hv
    rw [NEWS_URL_of, hv, Option.getD_none]

/-- An environment overriding the topic URL. -/
def w7Env : Env := ⟨some (("https://example.com/topic").toList), none⟩

/-- Witness for C7: the override is honoured. -/
theorem C7_config_override_witness :
    NEWS_URL_of w7Env = ("https://example.com/topic").toList :=
  (C7_config_override w7Env).1 _ rfl

/-- An environment asking for a cap of 50. -/
def c7Env : Env := ⟨none, some 50⟩

/-- Counterexample to C7 as stated: the environment supplies a cap of 50,
but the cap in force stays 20. -/
theorem C7_counterexample :
    c7Env.max_articles = some 50 ∧ MAX_ARTICLES_of c7Env = 20 ∧ (20 : Nat) ≠ 50 := by
  decide

/-! ## C8: the README summary excerpt -/

/-- Every article of a list is rendered somewhere in the enumerated
blocks. -/
theorem blocks_mem (a : Article) : ∀ (k : Nat) (l : List Article), a ∈ l →
    ∃ i, articleBlock i a ∈ articlesBlocks k l := by
  intro k l
  induction l generalizing k with
  | nil => intro h; cases h
  | cons x rest ih =>
    intro h
    rcases List.mem_cons.mp h with h | h
    · subst h
      exact ⟨k, List.mem_cons_self _ _⟩
    · obtain ⟨i, hi⟩ := ih (k + 1) h
      exact ⟨i, List.mem_cons_of_mem _ hi⟩

/-- C8: each of the top-5 articles is rendered with an excerpt that is a
prefix of the raw summary of length `min 150 |summary|` followed by the
literal ellipsis; in particular a summary of at most 150 characters is
reproduced whole, still followed by the ellipsis, with no HTML
stripping. -/
theorem C8_summary_excerpt (articles : List Article) (a : Article)
    (ha : a ∈ articles.take 5) :
    (∃ i, articleBlock i a ∈ readmeTop5 articles) ∧
    (∃ e, summaryExcerpt a = e ++ ELLIPSIS ∧ e <+: a.summary ∧
      e.length = min 150 a.summary.length) ∧
    (a.summary.length ≤ 150 → summaryExcerpt a = a.summary ++ ELLIPSIS) := by
  refine ⟨blocks_mem a 1 _ ha,
    ⟨a.summary.take 150, rfl, List.take_prefix _ _, List.length_take _ _⟩, ?_⟩
  intro h
  rw [summaryExcerpt, List.take_of_length_le h]

/-- An article with a short, markup-bearing summary. -/
def w8Article : Article := ⟨['t'], ['l'], [], [], ("<b>short</b>").toList⟩

/-- Witness for C8: a short summary is kept whole before the ellipsis. -/
theorem C8_summary_excerpt_witness :
    summaryExcerpt w8Article = w8Article.summary ++ ELLIPSIS :=
  (C8_summary_excerpt [w8Article] w8Article (by decide)).2.2 (by decide)
